import Mathlib

/-!
Shallow embedding of staticgenerator (staticgenerator/__init__.py).

Strings are modelled as `List Char` (Python unicode strings); the byte
length of the UTF-8 encoding is `utf8Len`.  The filesystem and the
renderer are modelled by oracles (`OSWorld`, a `renderer` function), and
the stateful operations (`publish_from_path`, `delete_from_path`,
`do_all`) return the trace of operating-system calls they perform
together with the exception they raise, if any.
-/

/-- Byte length of the UTF-8 encoding of a string, as computed by
Python `s.encode(utf8)` followed by `len`. -/
def utf8Len (l : List Char) : Nat := (l.map Char.utf8Size).sum

/-- Python `str.split(sep)` for a one-character separator: splits on every
occurrence of `sep`; the empty string yields `[[]]`, matching Python. -/
def pySplit (sep : Char) : List Char → List (List Char)
  | [] => [[]]
  | c :: rest =>
    if c = sep then [] :: pySplit sep rest
    else
      match pySplit sep rest with
      | [] => [[c]]
      | h :: t => (c :: h) :: t

/-- Python `path.endswith(c)` for a one-character suffix. -/
def endswith (c : Char) (l : List Char) : Bool := l.getLast? == some c

/-- Python `path.lstrip(slash)`: removes every leading slash character. -/
def lstripSlash (l : List Char) : List Char := List.dropWhile (fun c => c == '/') l

/-- Python `os.path.join(a, b)` for POSIX paths (the two-argument case used
by the source): an absolute `b` replaces `a`; otherwise a separator is
inserted unless `a` is empty or already ends with a slash. -/
def os_path_join (a b : List Char) : List Char :=
  if b.head? = some '/' then b
  else if a = [] ∨ a.getLast? = some '/' then a ++ b
  else a ++ '/' :: b

/-- Python `os.path.dirname(p)` for POSIX paths: the prefix of `p` up to and
including the last slash, with trailing slashes stripped unless the result
is empty or consists solely of slashes. -/
def os_path_dirname (p : List Char) : List Char :=
  let afterLast := p.reverse.takeWhile (fun c => !(c == '/'))
  let head := p.take (p.length - afterLast.length)
  if head.isEmpty then head
  else if head.all (fun c => c == '/') then head
  else (head.reverse.dropWhile (fun c => c == '/')).reverse

/-- Exceptions raised by the generator.  The source raises a single Python
class, `StaticGeneratorException`, with distinct message templates; each
constructor here records one template together with the data interpolated
into its message. -/
inductive SGErr
  | malformedPath (path : List Char)
  | renderFailed (path : List Char) (err : List Char)
  | nonSuccessStatus (path : List Char) (status : Int)
  | directoryCreateFailed (directory : List Char)
  | fileWriteFailed (filename : List Char)
  | fileDeleteFailed (filename : Option (List Char))
deriving DecidableEq

/-- Outcome of invoking the renderer (the `DummyHandler` call in
`get_content_from_path`): either the handler raises, or it returns a
response with a status code and body bytes. -/
inductive RenderResult
  | raises (err : List Char)
  | returns (status : Int) (body : List Nat)
deriving DecidableEq

/-- Operating-system calls performed by the stateful operations, recorded
as a trace. -/
inductive FSEvent
  | renderCall (path : List Char)
  | existsCheck (path : List Char)
  | makedirs (directory : List Char)
  | mkstempCreate (directory : List Char) (tmpname : List Char)
  | write (filename : List Char) (content : List Nat)
  | close (filename : List Char)
  | chmod (filename : List Char) (mode : Nat)
  | rename (src : List Char) (dst : List Char)
  | remove (filename : List Char)
  | rmdir (directory : List Char)
deriving DecidableEq

/-- Oracle describing the behaviour of the operating system during one
run: which paths exist, which temporary name `tempfile.mkstemp` generates
inside a directory, and which calls fail (a failing call raises in
Python; the model consults these flags). -/
structure OSWorld where
  existsF : List Char → Bool
  makedirsFails : List Char → Bool
  mkstempGen : List Char → List Char
  mkstempFails : List Char → Bool
  writeFails : List Char → Bool
  closeFails : List Char → Bool
  chmodFails : List Char → Bool
  renameFails : List Char → Bool
  removeFails : List Char → Bool
  rmdirFails : List Char → Bool

/-- Replace the existence oracle of a world, leaving the failure flags and
the temporary-name generator unchanged. -/
def setExists (w : OSWorld) (ex : List Char → Bool) : OSWorld :=
  ⟨ex, w.makedirsFails, w.mkstempGen, w.mkstempFails, w.writeFails, w.closeFails,
   w.chmodFails, w.renameFails, w.removeFails, w.rmdirFails⟩

/-- StaticGenerator.get_query_string_from_path: `parts = path.split(?)`;
one part means no query string, more than two parts raises
`Path %s has multiple query string values`, otherwise the two parts are
returned.  `pySplit` never returns an empty list, so the fallback arm of
the match is unreachable. -/
def get_query_string_from_path (path : List Char) :
    Except SGErr (List Char × Option (List Char)) :=
  match pySplit '?' path with
  | [x] => Except.ok (x, none)
  | [x, y] => Except.ok (x, some y)
  | _ => Except.error (SGErr.malformedPath path)

/-- The first two rewriting steps of StaticGenerator.get_filename_from_path:
append `index.html%3F` when the path ends in a slash, then append the
query string when it is truthy (`None` and the empty string are not
appended). -/
def qs_path (path : List Char) (query_string : Option (List Char)) : List Char :=
  let path1 := if endswith '/' path then path ++ "index.html%3F".toList else path
  match query_string with
  | some q => if q.isEmpty then path1 else path1 ++ q
  | none => path1

/-- The filename composed by StaticGenerator.get_filename_from_path before
the length check: append `index.html%3F` when the path ends in a slash,
then the query string when it is truthy, then `,ajax` when `is_ajax`,
then join with the web root after stripping leading slashes. -/
def raw_filename (web_root path : List Char) (query_string : Option (List Char))
    (is_ajax : Bool) : List Char :=
  let path3 := if is_ajax then qs_path path query_string ++ ",ajax".toList
               else qs_path path query_string
  os_path_join web_root (lstripSlash path3)

/-- StaticGenerator.get_filename_from_path: returns the composed filename
and its directory, or no location at all when the UTF-8 encoding of the
filename is longer than 255 bytes. -/
def get_filename_from_path (web_root path : List Char) (query_string : Option (List Char))
    (is_ajax : Bool) : Option (List Char × List Char) :=
  let filename := raw_filename web_root path query_string is_ajax
  if 255 < utf8Len filename then none
  else some (filename, os_path_dirname filename)

/-- StaticGenerator.get_content_from_path: performs one renderer call with
the given path; a raising handler becomes the `raised an exception` error,
a status other than 200 becomes the `returned http code` error, and on
status 200 the response body is the content. -/
def get_content_from_path (renderer : List Char → RenderResult) (path : List Char) :
    List FSEvent × Except SGErr (List Nat) :=
  ([FSEvent.renderCall path],
    match renderer path with
    | RenderResult.raises err => Except.error (SGErr.renderFailed path err)
    | RenderResult.returns status body =>
      if status ≠ 200 then Except.error (SGErr.nonSuccessStatus path status)
      else Except.ok body)

/-- Python truthiness of the `content` argument of publish_from_path:
`None` and the empty byte string are falsy. -/
def contentTruthy : Option (List Nat) → Bool
  | none => false
  | some c => !c.isEmpty

/-- The query-string resolution step at the top of publish_from_path: when
no query string was passed, the raw path is split (which may raise);
otherwise the raw path and the given query string are used as they are. -/
def publishSplit (query_string : Option (List Char)) (rawPath : List Char) :
    Except SGErr (List Char × Option (List Char)) :=
  match query_string with
  | none => get_query_string_from_path rawPath
  | some q => Except.ok (rawPath, some q)

/-- The write sequence of publish_from_path: `tempfile.mkstemp` in the
target directory, `os.write`, `os.close`, `os.chmod` to mode 0o644, then
`os.rename` onto the final filename; any failure in the sequence raises
`Could not create the file`. -/
def write_file (w : OSWorld) (directory filename : List Char) (c : List Nat) :
    List FSEvent × Option SGErr :=
  let tmp := w.mkstempGen directory
  let e1 := [FSEvent.mkstempCreate directory tmp]
  if w.mkstempFails directory then (e1, some (SGErr.fileWriteFailed filename))
  else
    let e2 := e1 ++ [FSEvent.write tmp c]
    if w.writeFails tmp then (e2, some (SGErr.fileWriteFailed filename))
    else
      let e3 := e2 ++ [FSEvent.close tmp]
      if w.closeFails tmp then (e3, some (SGErr.fileWriteFailed filename))
      else
        let e4 := e3 ++ [FSEvent.chmod tmp 420]
        if w.chmodFails tmp then (e4, some (SGErr.fileWriteFailed filename))
        else
          let e5 := e4 ++ [FSEvent.rename tmp filename]
          if w.renameFails tmp then (e5, some (SGErr.fileWriteFailed filename))
          else (e5, none)

/-- The filesystem tail of publish_from_path: check whether the directory
exists, create it when missing (a failing `os.makedirs` raises
`Could not create the directory`), then run the write sequence. -/
def publish_tail (w : OSWorld) (filename directory : List Char) (c : List Nat) :
    List FSEvent × Option SGErr :=
  if w.existsF directory then
    let r := write_file w directory filename c
    (FSEvent.existsCheck directory :: r.1, r.2)
  else if w.makedirsFails directory then
    ([FSEvent.existsCheck directory, FSEvent.makedirs directory],
     some (SGErr.directoryCreateFailed directory))
  else
    let r := write_file w directory filename c
    (FSEvent.existsCheck directory :: FSEvent.makedirs directory :: r.1, r.2)

/-- StaticGenerator.publish_from_path: resolve the query string, map the
path to a location (returning silently when there is none), obtain the
content from the renderer at the original unsplit path when the caller
did not supply truthy content, then create the directory if needed and
run the temporary-file write sequence. -/
def publish_from_path (web_root : List Char) (w : OSWorld)
    (renderer : List Char → RenderResult) (rawPath : List Char)
    (query_string : Option (List Char)) (content : Option (List Nat))
    (is_ajax : Bool) : List FSEvent × Option SGErr :=
  match publishSplit query_string rawPath with
  | Except.error e => ([], some e)
  | Except.ok (p2, q2) =>
    match get_filename_from_path web_root p2 q2 is_ajax with
    | none => ([], none)
    | some (filename, directory) =>
      match (if contentTruthy content then ([], Except.ok (content.getD []))
             else get_content_from_path renderer rawPath) with
      | (ev, Except.error e) => (ev, some e)
      | (ev, Except.ok c) =>
        let r := publish_tail w filename directory c
        (ev ++ r.1, r.2)

/-- StaticGenerator.delete_from_path: split the query string, map to a
location, remove the file when it exists (a failure while testing or
removing raises `Could not delete file`), then attempt to remove the
directory, swallowing any `OSError`.  When the mapping returns no
location, `os.path.exists(None)` raises a `TypeError` in Python 2, which
the bare except converts into the `Could not delete file: None` error
before the directory step is reached. -/
def delete_from_path (web_root : List Char) (w : OSWorld) (rawPath : List Char)
    (is_ajax : Bool) : List FSEvent × Option SGErr :=
  match get_query_string_from_path rawPath with
  | Except.error e => ([], some e)
  | Except.ok (p2, q2) =>
    match get_filename_from_path web_root p2 q2 is_ajax with
    | none => ([], some (SGErr.fileDeleteFailed none))
    | some (filename, directory) =>
      if w.existsF filename then
        if w.removeFails filename then
          ([FSEvent.remove filename], some (SGErr.fileDeleteFailed (some filename)))
        else ([FSEvent.remove filename, FSEvent.rmdir directory], none)
      else ([FSEvent.rmdir directory], none)

/-- StaticGenerator.do_all: apply the operation to each resolved path in
list order; an exception raised by one call propagates immediately, so
the remaining paths are not processed. -/
def do_all (func : List Char → List FSEvent × Option SGErr) :
    List (List Char) → List (List FSEvent) × Option SGErr
  | [] => ([], none)
  | p :: rest =>
    let r := func p
    match r.2 with
    | some e => ([r.1], some e)
    | none =>
      let rs := do_all func rest
      (r.1 :: rs.1, rs.2)

/-- Effect of one trace event on which files exist: `os.remove` deletes
its target, `os.rename` moves its source onto its destination, and
`tempfile.mkstemp` creates its temporary file.  Directory-level events do
not change which files exist. -/
def applyFSEvent (ex : List Char → Bool) : FSEvent → (List Char → Bool)
  | FSEvent.remove f => fun g => if g = f then false else ex g
  | FSEvent.rename s t => fun g => if g = t then true else if g = s then false else ex g
  | FSEvent.mkstempCreate _ t => fun g => if g = t then true else ex g
  | _ => ex

/-- Effect of a whole trace on which files exist. -/
def applyFSTrace (ex : List Char → Bool) (tr : List FSEvent) : List Char → Bool :=
  tr.foldl applyFSEvent ex

/-- A world in which every operating-system call succeeds, no path exists
beforehand, and the temporary name generated inside a directory is that
directory followed by `/tmp1`. -/
def wOk : OSWorld :=
  ⟨fun _ => false, fun _ => false, fun d => d ++ "/tmp1".toList, fun _ => false,
   fun _ => false, fun _ => false, fun _ => false, fun _ => false, fun _ => false,
   fun _ => false⟩

/-- A renderer that always answers status 200 with a two-byte body. -/
def rOk : List Char → RenderResult := fun _ => RenderResult.returns 200 [104, 105]

/-- A sample per-path operation for exercising the batch driver: it
records one event for the path and fails exactly on the path `b`. -/
def funcDemo : List Char → List FSEvent × Option SGErr :=
  fun p => ([FSEvent.remove p],
    if p = "b".toList then some (SGErr.fileWriteFailed p) else none)

theorem pySplit_ne_nil (sep : Char) : ∀ l : List Char, pySplit sep l ≠ []
  | [] => by simp [pySplit]
  | c :: rest => by
    by_cases h : c = sep
    · simp [pySplit, h]
    · simp only [pySplit, if_neg h]
      cases hps : pySplit sep rest with
      | nil => simp
      | cons a t => simp

theorem pySplit_of_count_zero (sep : Char) :
    ∀ l : List Char, l.count sep = 0 → pySplit sep l = [l]
  | [], _ => by simp [pySplit]
  | c :: rest, h => by
    have hc : ¬ c = sep := by
      intro hc
      simp [List.count_cons, hc] at h
    have hr : rest.count sep = 0 := by
      simp only [List.count_cons] at h
      omega
    simp [pySplit, hc, pySplit_of_count_zero sep rest hr]

theorem pySplit_append (sep : Char) :
    ∀ a b : List Char, sep ∉ a → pySplit sep (a ++ sep :: b) = a :: pySplit sep b
  | [], b, _ => by simp [pySplit]
  | c :: a, b, h => by
    have hc : ¬ c = sep := by
      intro hc
      exact h (by simp [hc])
    have ha : sep ∉ a := fun hm => h (by simp [hm])
    have ih := pySplit_append sep a b ha
    simp only [List.cons_append, pySplit, if_neg hc, List.append_eq] at ih ⊢
    rw [ih]

theorem count_decomp (sep : Char) :
    ∀ (l : List Char) (n : Nat), l.count sep = n + 1 →
      ∃ a b, l = a ++ sep :: b ∧ sep ∉ a ∧ b.count sep = n
  | [], n, h => by simp at h
  | c :: rest, n, h => by
    by_cases hc : c = sep
    · subst hc
      refine ⟨[], rest, by simp, by simp, ?_⟩
      simp [List.count_cons] at h
      omega
    · have hr : rest.count sep = n + 1 := by
        simp only [List.count_cons] at h
        have : ¬ (c == sep) = true := by simp [hc]
        simp [this] at h
        omega
      obtain ⟨a, b, hl, hna, hb⟩ := count_decomp sep rest n hr
      refine ⟨c :: a, b, by simp [hl], ?_, hb⟩
      intro hm
      rcases List.mem_cons.mp hm with h1 | h2
      · exact hc h1.symm
      · exact hna h2

theorem length_pySplit (sep : Char) :
    ∀ l : List Char, (pySplit sep l).length = l.count sep + 1
  | [] => by simp [pySplit]
  | c :: rest => by
    by_cases hc : c = sep
    · simp [pySplit, hc, length_pySplit sep rest, List.count_cons]
    · have hbeq : ¬ (c == sep) = true := by simp [hc]
      simp only [pySplit, if_neg hc, List.count_cons]
      cases hps : pySplit sep rest with
      | nil => exact absurd hps (pySplit_ne_nil sep rest)
      | cons a t =>
        have := length_pySplit sep rest
        rw [hps] at this
        simp at this
        simp [hbeq, ← this]

theorem count_eq_zero_not_mem {a : Char} {l : List Char} (h : l.count a = 0) : a ∉ l :=
  List.count_eq_zero.mp h

/-- C4: splitQueryString returns the whole path with no query when the raw
path contains no question mark, the prefix and suffix around the single
question mark when it contains exactly one, and fails with the
malformed-path error when it contains two or more, never truncating. -/
theorem query_split_spec (p : List Char) :
    (p.count '?' = 0 → get_query_string_from_path p = Except.ok (p, none)) ∧
    (p.count '?' = 1 → ∃ a b, p = a ++ '?' :: b ∧ '?' ∉ a ∧ '?' ∉ b ∧
        get_query_string_from_path p = Except.ok (a, some b)) ∧
    (2 ≤ p.count '?' → get_query_string_from_path p = Except.error (SGErr.malformedPath p)) := by
  refine ⟨?_, ?_, ?_⟩
  · intro h
    unfold get_query_string_from_path
    rw [pySplit_of_count_zero '?' p h]
  · intro h
    obtain ⟨a, b, hl, hna, hb⟩ := count_decomp '?' p 0 (by omega)
    refine ⟨a, b, hl, hna, count_eq_zero_not_mem hb, ?_⟩
    unfold get_query_string_from_path
    rw [hl, pySplit_append '?' a b hna, pySplit_of_count_zero '?' b hb]
  · intro h
    have hlen := length_pySplit '?' p
    unfold get_query_string_from_path
    cases hps : pySplit '?' p with
    | nil => exact absurd hps (pySplit_ne_nil '?' p)
    | cons x t =>
      rw [hps] at hlen
      cases t with
      | nil => simp at hlen; omega
      | cons y t2 =>
        cases t2 with
        | nil => simp at hlen; omega
        | cons z t3 => rfl

theorem query_split_spec_witness :
    ("/a/b?x=1".toList.count '?' = 1) ∧
    (∃ a b, "/a/b?x=1".toList = a ++ '?' :: b ∧ '?' ∉ a ∧ '?' ∉ b ∧
        get_query_string_from_path "/a/b?x=1".toList = Except.ok (a, some b)) :=
  ⟨by decide, (query_split_spec "/a/b?x=1".toList).2.1 (by decide)⟩

theorem dropWhile_of_all {P : Char → Bool} :
    ∀ {l : List Char}, l.all P = true → List.dropWhile P l = []
  | [], _ => rfl
  | c :: t, h => by
    simp only [List.all_cons, Bool.and_eq_true] at h
    simp [List.dropWhile, h.1, dropWhile_of_all h.2]

theorem dropWhile_append_of_all {P : Char → Bool} :
    ∀ {a : List Char} (b : List Char), a.all P = true →
      List.dropWhile P (a ++ b) = List.dropWhile P b
  | [], b, _ => rfl
  | c :: t, b, h => by
    simp only [List.all_cons, Bool.and_eq_true] at h
    simp [List.dropWhile, h.1, dropWhile_append_of_all b h.2]

theorem dropWhile_append_of_not_all {P : Char → Bool} :
    ∀ {a : List Char} (b : List Char), a.all P = false →
      List.dropWhile P (a ++ b) = List.dropWhile P a ++ b
  | [], _, h => by simp at h
  | c :: t, b, h => by
    by_cases hc : P c
    · simp only [List.all_cons, hc, Bool.true_and] at h
      simp [List.dropWhile, hc, dropWhile_append_of_not_all b h]
    · simp [List.dropWhile, hc]

theorem dropWhile_ne_nil_of_not_all {P : Char → Bool} :
    ∀ {a : List Char}, a.all P = false → List.dropWhile P a ≠ []
  | [], h => by simp at h
  | c :: t, h => by
    by_cases hc : P c
    · simp only [List.all_cons, hc, Bool.true_and] at h
      simpa [List.dropWhile, hc] using dropWhile_ne_nil_of_not_all h
    · simp [List.dropWhile, hc]

theorem dropWhile_head_false {P : Char → Bool} :
    ∀ {l : List Char} {c : Char} {t : List Char}, List.dropWhile P l = c :: t → P c = false
  | [], c, t, h => by simp [List.dropWhile] at h
  | x :: r, c, t, h => by
    by_cases hx : P x
    · rw [List.dropWhile_cons_of_pos hx] at h
      exact dropWhile_head_false h
    · rw [List.dropWhile_cons_of_neg hx] at h
      cases h
      exact Bool.of_not_eq_true hx

theorem suffix_os_path_join (a b : List Char) : b <:+ os_path_join a b := by
  unfold os_path_join
  by_cases h1 : b.head? = some '/'
  · simp [h1]
  · rw [if_neg h1]
    by_cases h2 : a = [] ∨ a.getLast? = some '/'
    · rw [if_pos h2]
      exact List.suffix_append a b
    · rw [if_neg h2]
      have : a ++ '/' :: b = (a ++ ['/']) ++ b := by simp
      rw [this]
      exact List.suffix_append (a ++ ['/']) b

theorem os_path_join_append (a s q : List Char) (h1 : s ≠ [])
    (h2 : s.head? ≠ some '/') : os_path_join a (s ++ q) = os_path_join a s ++ q := by
  unfold os_path_join
  have hh : (s ++ q).head? = s.head? := by
    cases s with
    | nil => exact absurd rfl h1
    | cons c t => rfl
  rw [hh, if_neg h2, if_neg h2]
  by_cases h3 : a = [] ∨ a.getLast? = some '/'
  · rw [if_pos h3, if_pos h3, List.append_assoc]
  · rw [if_neg h3, if_neg h3]
    simp

theorem join_lstrip_append (wr u sfx : List Char) (h1 : sfx ≠ [])
    (h2 : sfx.head? ≠ some '/') :
    os_path_join wr (lstripSlash (u ++ sfx)) = os_path_join wr (lstripSlash u) ++ sfx := by
  by_cases hall : u.all (fun c => c == '/') = true
  · have hls : lstripSlash u = [] := dropWhile_of_all hall
    have hlsa : lstripSlash (u ++ sfx) = sfx := by
      unfold lstripSlash
      rw [dropWhile_append_of_all sfx hall]
      cases sfx with
      | nil => exact absurd rfl h1
      | cons c t =>
        have hc : ¬ (c == '/') = true := by
          intro hcc
          exact h2 (by simp_all)
        simp [List.dropWhile, hc]
    rw [hls, hlsa]
    unfold os_path_join
    rw [if_neg h2]
    have hnil : ([] : List Char).head? ≠ some '/' := by simp
    rw [if_neg hnil]
    by_cases h3 : wr = [] ∨ wr.getLast? = some '/'
    · rw [if_pos h3, if_pos h3]
      simp
    · rw [if_neg h3, if_neg h3]
      simp
  · have hall2 : u.all (fun c => c == '/') = false := by
      exact Bool.of_not_eq_true hall
    have hlsa : lstripSlash (u ++ sfx) = lstripSlash u ++ sfx :=
      dropWhile_append_of_not_all sfx hall2
    rw [hlsa]
    have hne : lstripSlash u ≠ [] := dropWhile_ne_nil_of_not_all hall2
    have hhd : (lstripSlash u).head? ≠ some '/' := by
      cases hls : lstripSlash u with
      | nil => exact absurd hls hne
      | cons c t =>
        have := dropWhile_head_false (P := fun c => c == '/') hls
        simp only [List.head?_cons, ne_eq, Option.some.injEq]
        intro hcc
        rw [hcc] at this
        simp at this
    exact os_path_join_append wr (lstripSlash u) sfx hne hhd

theorem raw_ajax_eq (wr p : List Char) (qs : Option (List Char)) :
    raw_filename wr p qs true = raw_filename wr p qs false ++ ",ajax".toList := by
  show os_path_join wr (lstripSlash (qs_path p qs ++ ",ajax".toList)) =
    os_path_join wr (lstripSlash (qs_path p qs)) ++ ",ajax".toList
  exact join_lstrip_append wr (qs_path p qs) ",ajax".toList (by decide) (by decide)

/-- C1 counterexample: for path `/` under web root `/t` the mapping returns
the filename `/t/index.html%3F`, whose final byte is `F`; it does not end
in a literal question mark, refuting the claim as stated. -/
theorem index_suffix_counterexample :
    get_filename_from_path "/t".toList "/".toList none false =
      some ("/t/index.html%3F".toList, "/t".toList) ∧
    ¬ ("index.html?".toList <:+ "/t/index.html%3F".toList) := by
  exact ⟨by decide, by decide⟩

/-- C1 amended: for every URL path ending in a slash, mapped with no query
string and the AJAX flag unset, whenever the mapping returns a filename at
all (it returns no location for oversized filenames), that filename ends
in the literal character sequence `index.html%3F` (a percent sign, a
three and a capital F as the final bytes, not a question mark). -/
theorem index_suffix_amended (wr p f d : List Char)
    (hslash : endswith '/' p = true)
    (hmap : get_filename_from_path wr p none false = some (f, d)) :
    "index.html%3F".toList <:+ f := by
  unfold get_filename_from_path at hmap
  by_cases hlen : 255 < utf8Len (raw_filename wr p none false)
  · rw [if_pos hlen] at hmap
    exact absurd hmap (by simp)
  · rw [if_neg hlen] at hmap
    simp only [Option.some.injEq, Prod.mk.injEq] at hmap
    rw [← hmap.1]
    have hraw : raw_filename wr p none false =
        os_path_join wr (lstripSlash (p ++ "index.html%3F".toList)) := by
      unfold raw_filename qs_path
      simp [hslash]
    rw [hraw, join_lstrip_append wr p "index.html%3F".toList (by decide) (by decide)]
    exact List.suffix_append _ _

theorem index_suffix_amended_witness :
    (endswith '/' "/x/".toList = true) ∧
    ("index.html%3F".toList <:+ "/t/x/index.html%3F".toList) :=
  ⟨by decide, index_suffix_amended "/t".toList "/x/".toList "/t/x/index.html%3F".toList
    "/t/x".toList (by decide) (by decide)⟩

set_option maxRecDepth 4000 in
/-- C7 counterexample: for a 300-character path both the AJAX and the
non-AJAX mappings exceed the 255-byte limit and return no location, so the
two mapping results are equal, refuting the claim for inputs beyond the
length limit. -/
theorem ajax_collision_counterexample :
    get_filename_from_path ".".toList (List.replicate 300 'a') none true =
      get_filename_from_path ".".toList (List.replicate 300 'a') none false := by
  decide

/-- C7 amended: whenever at least one of the AJAX and non-AJAX mappings of
the same path and query string returns a location, the two mapping results
differ (the `,ajax` suffix separates the cache locations); beyond the
255-byte limit both return no location and coincide. -/
theorem ajax_distinct_amended (wr p : List Char) (qs : Option (List Char))
    (h : get_filename_from_path wr p qs true ≠ none ∨
         get_filename_from_path wr p qs false ≠ none) :
    get_filename_from_path wr p qs true ≠ get_filename_from_path wr p qs false := by
  intro heq
  have hax := raw_ajax_eq wr p qs
  unfold get_filename_from_path at heq h
  by_cases hT : 255 < utf8Len (raw_filename wr p qs true) <;>
    by_cases hF : 255 < utf8Len (raw_filename wr p qs false)
  · rw [if_pos hT, if_pos hF] at h
    simp at h
  · rw [if_pos hT, if_neg hF] at heq
    simp at heq
  · rw [if_neg hT, if_pos hF] at heq
    simp at heq
  · rw [if_neg hT, if_neg hF] at heq
    simp only [Option.some.injEq, Prod.mk.injEq] at heq
    have h1 : raw_filename wr p qs true = raw_filename wr p qs false := heq.1
    rw [hax] at h1
    have hlen := congrArg List.length h1
    simp at hlen

theorem ajax_distinct_amended_witness :
    (get_filename_from_path ".".toList "/a".toList none true ≠ none) ∧
    get_filename_from_path ".".toList "/a".toList none true ≠
      get_filename_from_path ".".toList "/a".toList none false :=
  ⟨by decide, ajax_distinct_amended ".".toList "/a".toList none (Or.inl (by decide))⟩

set_option maxRecDepth 4000 in
/-- C9 counterexample: for a 301-character path with query string `x=1`
the mapping returns no location rather than the claimed joined filename,
refuting the claim for paths beyond the 255-byte limit. -/
theorem query_append_counterexample :
    (get_filename_from_path ".".toList ('/' :: List.replicate 300 'b')
        (some "x=1".toList) false).map (fun x => x.1) ≠
      some (os_path_join ".".toList (lstripSlash ('/' :: List.replicate 300 'b')) ++
        "x=1".toList) := by
  decide

/-- C9 amended: for every path starting with a slash and not ending in a
slash and every non-empty query string, whenever the composed filename is
within the 255-byte limit, the mapping with the AJAX flag unset yields
exactly the web root joined with the path (leading slashes stripped)
immediately followed by the query string, with nothing in between. -/
theorem query_append_amended (wr p q : List Char)
    (hhead : p.head? = some '/')
    (hlast : endswith '/' p = false)
    (hq : q ≠ [])
    (hlen : utf8Len (raw_filename wr p (some q) false) ≤ 255) :
    get_filename_from_path wr p (some q) false =
      some (os_path_join wr (lstripSlash p) ++ q,
        os_path_dirname (os_path_join wr (lstripSlash p) ++ q)) := by
  have hne : p ≠ [] := by
    intro h0
    rw [h0] at hhead
    simp at hhead
  have hlast2 : p.getLast? ≠ some '/' := by
    intro hg
    unfold endswith at hlast
    rw [hg] at hlast
    simp at hlast
  have hallf : p.all (fun c => c == '/') = false := by
    apply Bool.of_not_eq_true
    intro hall
    have hmem : p.getLast hne ∈ p := List.getLast_mem hne
    have hc := List.all_eq_true.mp hall _ hmem
    have hg : p.getLast? = some (p.getLast hne) := List.getLast?_eq_getLast p hne
    have heqc : p.getLast hne = '/' := by simpa using hc
    rw [heqc] at hg
    exact hlast2 hg
  have hqs : qs_path p (some q) = p ++ q := by
    unfold qs_path
    have hqe : q.isEmpty = false := by
      cases q with
      | nil => exact absurd rfl hq
      | cons a t => rfl
    simp [hlast, hqe]
  have hls : lstripSlash (p ++ q) = lstripSlash p ++ q :=
    dropWhile_append_of_not_all q hallf
  have hne2 : lstripSlash p ≠ [] := dropWhile_ne_nil_of_not_all hallf
  have hhd2 : (lstripSlash p).head? ≠ some '/' := by
    cases hls2 : lstripSlash p with
    | nil => exact absurd hls2 hne2
    | cons c t =>
      have hcf := dropWhile_head_false (P := fun c => c == '/') hls2
      simp only [List.head?_cons, ne_eq, Option.some.injEq]
      intro hcc
      rw [hcc] at hcf
      simp at hcf
  have hraw : raw_filename wr p (some q) false =
      os_path_join wr (lstripSlash p) ++ q := by
    show os_path_join wr (lstripSlash (qs_path p (some q))) = _
    rw [hqs, hls]
    exact os_path_join_append wr (lstripSlash p) q hne2 hhd2
  unfold get_filename_from_path
  rw [if_neg (by omega), hraw]

theorem query_append_amended_witness :
    (utf8Len (raw_filename "/w".toList "/a".toList (some "x=1".toList) false) ≤ 255) ∧
    get_filename_from_path "/w".toList "/a".toList (some "x=1".toList) false =
      some (os_path_join "/w".toList (lstripSlash "/a".toList) ++ "x=1".toList,
        os_path_dirname (os_path_join "/w".toList (lstripSlash "/a".toList) ++ "x=1".toList)) :=
  ⟨by decide, query_append_amended "/w".toList "/a".toList "x=1".toList
    (by decide) (by decide) (by decide) (by decide)⟩

theorem write_file_events (w : OSWorld) (d f : List Char) (c : List Nat) :
    ∀ e ∈ (write_file w d f c).1,
      e = FSEvent.mkstempCreate d (w.mkstempGen d) ∨
      e = FSEvent.write (w.mkstempGen d) c ∨
      e = FSEvent.close (w.mkstempGen d) ∨
      e = FSEvent.chmod (w.mkstempGen d) 420 ∨
      e = FSEvent.rename (w.mkstempGen d) f := by
  intro e he
  unfold write_file at he
  by_cases h1 : w.mkstempFails d = true <;>
    by_cases h2 : w.writeFails (w.mkstempGen d) = true <;>
    by_cases h3 : w.closeFails (w.mkstempGen d) = true <;>
    by_cases h4 : w.chmodFails (w.mkstempGen d) = true <;>
    by_cases h5 : w.renameFails (w.mkstempGen d) = true <;>
    simp [h1, h2, h3, h4, h5] at he <;> tauto

theorem write_file_success (w : OSWorld) (d f : List Char) (c : List Nat)
    (h : (write_file w d f c).2 = none) :
    (write_file w d f c).1 =
      [FSEvent.mkstempCreate d (w.mkstempGen d), FSEvent.write (w.mkstempGen d) c,
       FSEvent.close (w.mkstempGen d), FSEvent.chmod (w.mkstempGen d) 420,
       FSEvent.rename (w.mkstempGen d) f] := by
  unfold write_file at h ⊢
  by_cases h1 : w.mkstempFails d = true <;>
    by_cases h2 : w.writeFails (w.mkstempGen d) = true <;>
    by_cases h3 : w.closeFails (w.mkstempGen d) = true <;>
    by_cases h4 : w.chmodFails (w.mkstempGen d) = true <;>
    by_cases h5 : w.renameFails (w.mkstempGen d) = true <;>
    simp_all

theorem write_file_err (w : OSWorld) (d f : List Char) (c : List Nat) (e : SGErr)
    (h : (write_file w d f c).2 = some e) : e = SGErr.fileWriteFailed f := by
  unfold write_file at h
  by_cases h1 : w.mkstempFails d = true <;>
    by_cases h2 : w.writeFails (w.mkstempGen d) = true <;>
    by_cases h3 : w.closeFails (w.mkstempGen d) = true <;>
    by_cases h4 : w.chmodFails (w.mkstempGen d) = true <;>
    by_cases h5 : w.renameFails (w.mkstempGen d) = true <;>
    simp_all

theorem publish_tail_cases (w : OSWorld) (f d : List Char) (c : List Nat) :
    (publish_tail w f d c =
      (FSEvent.existsCheck d :: (write_file w d f c).1, (write_file w d f c).2)) ∨
    (publish_tail w f d c =
      ([FSEvent.existsCheck d, FSEvent.makedirs d], some (SGErr.directoryCreateFailed d))) ∨
    (publish_tail w f d c =
      (FSEvent.existsCheck d :: FSEvent.makedirs d :: (write_file w d f c).1,
       (write_file w d f c).2)) := by
  unfold publish_tail
  split_ifs <;> tauto

theorem publish_tail_mem (w : OSWorld) (f d : List Char) (c : List Nat) (e : FSEvent)
    (he : e ∈ (publish_tail w f d c).1) :
    e = FSEvent.existsCheck d ∨ e = FSEvent.makedirs d ∨ e ∈ (write_file w d f c).1 := by
  rcases publish_tail_cases w f d c with h | h | h <;> rw [h] at he <;> simp at he <;> tauto

theorem publish_tail_err (w : OSWorld) (f d : List Char) (c : List Nat) (e : SGErr)
    (h : (publish_tail w f d c).2 = some e) :
    e = SGErr.directoryCreateFailed d ∨ e = SGErr.fileWriteFailed f := by
  rcases publish_tail_cases w f d c with hc | hc | hc <;> rw [hc] at h <;> simp at h
  · exact Or.inr (write_file_err w d f c e h)
  · exact Or.inl h.symm
  · exact Or.inr (write_file_err w d f c e h)

theorem tail_no_write_at (w : OSWorld) (f d : List Char) (c : List Nat)
    (htmp : w.mkstempGen d ≠ f) :
    (∀ c2, FSEvent.write f c2 ∉ (publish_tail w f d c).1) ∧
    (∀ d2, FSEvent.mkstempCreate d2 f ∉ (publish_tail w f d c).1) := by
  constructor
  · intro c2 hmem
    rcases publish_tail_mem w f d c _ hmem with h | h | h
    · simp at h
    · simp at h
    · rcases write_file_events w d f c _ h with h1 | h1 | h1 | h1 | h1
      · simp at h1
      · simp only [FSEvent.write.injEq] at h1
        exact htmp h1.1.symm
      · simp at h1
      · simp at h1
      · simp at h1
  · intro d2 hmem
    rcases publish_tail_mem w f d c _ hmem with h | h | h
    · simp at h
    · simp at h
    · rcases write_file_events w d f c _ h with h1 | h1 | h1 | h1 | h1
      · simp only [FSEvent.mkstempCreate.injEq] at h1
        exact htmp h1.2.symm
      · simp at h1
      · simp at h1
      · simp at h1
      · simp at h1

theorem tail_success_shape (w : OSWorld) (f d : List Char) (c : List Nat)
    (h : (publish_tail w f d c).2 = none) :
    ∃ ev, (publish_tail w f d c).1 =
        ev ++ [FSEvent.mkstempCreate d (w.mkstempGen d), FSEvent.write (w.mkstempGen d) c,
          FSEvent.close (w.mkstempGen d), FSEvent.chmod (w.mkstempGen d) 420,
          FSEvent.rename (w.mkstempGen d) f] ∧
      ∀ e ∈ ev, e = FSEvent.existsCheck d ∨ e = FSEvent.makedirs d := by
  rcases publish_tail_cases w f d c with hc | hc | hc
  · rw [hc] at h ⊢
    refine ⟨[FSEvent.existsCheck d], ?_, by simp⟩
    simp only at h
    rw [write_file_success w d f c h]
    rfl
  · rw [hc] at h
    simp at h
  · rw [hc] at h ⊢
    refine ⟨[FSEvent.existsCheck d, FSEvent.makedirs d], ?_, by simp⟩
    simp only at h
    rw [write_file_success w d f c h]
    rfl

theorem publish_eq (wr : List Char) (w : OSWorld) (renderer : List Char → RenderResult)
    (rawPath : List Char) (qs : Option (List Char)) (content : Option (List Nat))
    (ajax : Bool) (p2 : List Char) (q2 : Option (List Char)) (f d : List Char)
    (hq : publishSplit qs rawPath = Except.ok (p2, q2))
    (hf : get_filename_from_path wr p2 q2 ajax = some (f, d)) :
    (contentTruthy content = true ∧
        publish_from_path wr w renderer rawPath qs content ajax =
          ((publish_tail w f d (content.getD [])).1,
           (publish_tail w f d (content.getD [])).2)) ∨
    (contentTruthy content = false ∧ ∃ err,
        renderer rawPath = RenderResult.raises err ∧
        publish_from_path wr w renderer rawPath qs content ajax =
          ([FSEvent.renderCall rawPath], some (SGErr.renderFailed rawPath err))) ∨
    (contentTruthy content = false ∧ ∃ s body,
        renderer rawPath = RenderResult.returns s body ∧
        ((¬ s = 200 ∧ publish_from_path wr w renderer rawPath qs content ajax =
            ([FSEvent.renderCall rawPath], some (SGErr.nonSuccessStatus rawPath s))) ∨
         (s = 200 ∧ publish_from_path wr w renderer rawPath qs content ajax =
            (FSEvent.renderCall rawPath :: (publish_tail w f d body).1,
             (publish_tail w f d body).2)))) := by
  by_cases hct : contentTruthy content = true
  · left
    refine ⟨hct, ?_⟩
    simp only [publish_from_path, hq, hf, hct, if_pos, List.nil_append]
  · have hctf : contentTruthy content = false := Bool.of_not_eq_true hct
    cases hr : renderer rawPath with
    | raises err =>
      right; left
      refine ⟨hctf, err, rfl, ?_⟩
      simp only [publish_from_path, hq, hf, hctf, get_content_from_path, hr,
        Bool.false_eq_true, if_false]
    | returns s body =>
      right; right
      refine ⟨hctf, s, body, rfl, ?_⟩
      by_cases hs : s = 200
      · right
        refine ⟨hs, ?_⟩
        simp only [publish_from_path, hq, hf, hctf, get_content_from_path, hr,
          Bool.false_eq_true, if_false, hs]
        simp
      · left
        refine ⟨hs, ?_⟩
        simp only [publish_from_path, hq, hf, hctf, get_content_from_path, hr,
          Bool.false_eq_true, if_false]
        simp [hs]

/-- C2: during publish the content bytes are written only to the uniquely
named temporary file created by mkstemp inside the target directory;
provided that temporary name differs from the final filename, no write and
no file-creation event ever targets the final filename, and a successful
publish performs the complete write sequence, the rename of the temporary
file onto the final filename being the last step of the trace. -/
theorem publish_atomic_write (wr : List Char) (w : OSWorld)
    (renderer : List Char → RenderResult) (rawPath : List Char)
    (qs : Option (List Char)) (content : Option (List Nat)) (ajax : Bool)
    (p2 : List Char) (q2 : Option (List Char)) (f d : List Char)
    (hq : publishSplit qs rawPath = Except.ok (p2, q2))
    (hf : get_filename_from_path wr p2 q2 ajax = some (f, d))
    (htmp : w.mkstempGen d ≠ f) :
    (∀ c2, FSEvent.write f c2 ∉ (publish_from_path wr w renderer rawPath qs content ajax).1) ∧
    (∀ d2, FSEvent.mkstempCreate d2 f ∉
        (publish_from_path wr w renderer rawPath qs content ajax).1) ∧
    ((publish_from_path wr w renderer rawPath qs content ajax).2 = none →
      ∃ ev c, (publish_from_path wr w renderer rawPath qs content ajax).1 =
          ev ++ [FSEvent.mkstempCreate d (w.mkstempGen d), FSEvent.write (w.mkstempGen d) c,
            FSEvent.close (w.mkstempGen d), FSEvent.chmod (w.mkstempGen d) 420,
            FSEvent.rename (w.mkstempGen d) f] ∧
        ∀ e ∈ ev, e = FSEvent.renderCall rawPath ∨ e = FSEvent.existsCheck d ∨
          e = FSEvent.makedirs d) := by
  rcases publish_eq wr w renderer rawPath qs content ajax p2 q2 f d hq hf with
    ⟨hct, hres⟩ | ⟨hct, err, hr, hres⟩ | ⟨hct, s, body, hr, ⟨hs, hres⟩ | ⟨hs, hres⟩⟩
  · refine ⟨?_, ?_, ?_⟩
    · intro c2 hmem
      rw [hres] at hmem
      exact (tail_no_write_at w f d _ htmp).1 c2 hmem
    · intro d2 hmem
      rw [hres] at hmem
      exact (tail_no_write_at w f d _ htmp).2 d2 hmem
    · intro hnone
      rw [hres] at hnone ⊢
      obtain ⟨ev, hev, hall⟩ := tail_success_shape w f d _ hnone
      exact ⟨ev, content.getD [], hev, fun e he => Or.inr (hall e he)⟩
  · refine ⟨?_, ?_, ?_⟩
    · intro c2 hmem
      rw [hres] at hmem
      simp at hmem
    · intro d2 hmem
      rw [hres] at hmem
      simp at hmem
    · intro hnone
      rw [hres] at hnone
      simp at hnone
  · refine ⟨?_, ?_, ?_⟩
    · intro c2 hmem
      rw [hres] at hmem
      simp at hmem
    · intro d2 hmem
      rw [hres] at hmem
      simp at hmem
    · intro hnone
      rw [hres] at hnone
      simp at hnone
  · refine ⟨?_, ?_, ?_⟩
    · intro c2 hmem
      rw [hres] at hmem
      rcases List.mem_cons.mp hmem with h | h
      · simp at h
      · exact (tail_no_write_at w f d body htmp).1 c2 h
    · intro d2 hmem
      rw [hres] at hmem
      rcases List.mem_cons.mp hmem with h | h
      · simp at h
      · exact (tail_no_write_at w f d body htmp).2 d2 h
    · intro hnone
      rw [hres] at hnone ⊢
      obtain ⟨ev, hev, hall⟩ := tail_success_shape w f d body hnone
      refine ⟨FSEvent.renderCall rawPath :: ev, body, ?_, ?_⟩
      · simp only [List.cons_append]
        rw [← hev]
      · intro e he
        rcases List.mem_cons.mp he with h | h
        · exact Or.inl h
        · exact Or.inr (hall e h)

theorem publish_atomic_write_witness :
    (wOk.mkstempGen "/r/a".toList ≠ "/r/a/index.html%3F".toList) ∧
    ∀ c2, FSEvent.write "/r/a/index.html%3F".toList c2 ∉
      (publish_from_path "/r".toList wOk rOk "/a/".toList none none false).1 :=
  ⟨by decide, (publish_atomic_write "/r".toList wOk rOk "/a/".toList none none false
      "/a/".toList none "/r/a/index.html%3F".toList "/r/a".toList
      (by rfl) (by decide) (by decide)).1⟩

/-- C3: for a path whose composed filename exceeds 255 bytes after UTF-8
encoding, the mapping returns no location, and publish on that path
returns successfully with an empty trace: no renderer call, no directory
creation and no filesystem write, and no error raised. -/
theorem publish_skip_oversized (wr : List Char) (w : OSWorld)
    (renderer : List Char → RenderResult) (rawPath : List Char)
    (content : Option (List Nat)) (ajax : Bool)
    (p2 : List Char) (q2 : Option (List Char))
    (hq : get_query_string_from_path rawPath = Except.ok (p2, q2))
    (hlen : 255 < utf8Len (raw_filename wr p2 q2 ajax)) :
    get_filename_from_path wr p2 q2 ajax = none ∧
    publish_from_path wr w renderer rawPath none content ajax = ([], none) := by
  have hmap : get_filename_from_path wr p2 q2 ajax = none := by
    unfold get_filename_from_path
    rw [if_pos hlen]
  refine ⟨hmap, ?_⟩
  have hps : publishSplit none rawPath = Except.ok (p2, q2) := hq
  simp only [publish_from_path, hps, hmap]

set_option maxRecDepth 4000 in
theorem publish_skip_oversized_witness :
    (255 < utf8Len (raw_filename ".".toList (List.replicate 300 'a') none false)) ∧
    (get_filename_from_path ".".toList (List.replicate 300 'a') none false = none ∧
     publish_from_path ".".toList wOk rOk (List.replicate 300 'a') none none false =
       ([], none)) :=
  ⟨by decide, publish_skip_oversized ".".toList wOk rOk (List.replicate 300 'a') none false
    (List.replicate 300 'a') none (by rfl) (by decide)⟩

/-- C10: on a path whose mapped filename exceeds the 255-byte limit,
delete raises the file-delete error rather than silently skipping (the
absent location reaches the existence test, whose failure the bare except
converts into that error), while publish on the same path is a silent
no-op. -/
theorem delete_oversized_raises (wr : List Char) (w : OSWorld)
    (renderer : List Char → RenderResult) (rawPath : List Char)
    (content : Option (List Nat)) (ajax : Bool)
    (p2 : List Char) (q2 : Option (List Char))
    (hq : get_query_string_from_path rawPath = Except.ok (p2, q2))
    (hmap : get_filename_from_path wr p2 q2 ajax = none) :
    delete_from_path wr w rawPath ajax = ([], some (SGErr.fileDeleteFailed none)) ∧
    publish_from_path wr w renderer rawPath none content ajax = ([], none) := by
  constructor
  · simp only [delete_from_path, hq, hmap]
  · have hps : publishSplit none rawPath = Except.ok (p2, q2) := hq
    simp only [publish_from_path, hps, hmap]

set_option maxRecDepth 4000 in
theorem delete_oversized_raises_witness :
    (get_filename_from_path ".".toList (List.replicate 300 'a') none false = none) ∧
    (delete_from_path ".".toList wOk (List.replicate 300 'a') false =
        ([], some (SGErr.fileDeleteFailed none)) ∧
     publish_from_path ".".toList wOk rOk (List.replicate 300 'a') none none false =
        ([], none)) :=
  ⟨by decide, delete_oversized_raises ".".toList wOk rOk (List.replicate 300 'a') none false
    (List.replicate 300 'a') none (by rfl) (by decide)⟩

/-- C6: when publish must obtain content itself it invokes the renderer
with the original unsplit path; it fails with the render-failure error
carrying the original path and the error text when the renderer raises,
it fails with the non-success error carrying the original path exactly
when the renderer returns a status other than 200, and on status 200 a
successful publish writes exactly the body bytes the renderer returned. -/
theorem publish_render_contract (wr : List Char) (w : OSWorld)
    (renderer : List Char → RenderResult) (rawPath : List Char)
    (qs : Option (List Char)) (ajax : Bool)
    (p2 : List Char) (q2 : Option (List Char)) (f d : List Char)
    (hq : publishSplit qs rawPath = Except.ok (p2, q2))
    (hf : get_filename_from_path wr p2 q2 ajax = some (f, d)) :
    (FSEvent.renderCall rawPath ∈ (publish_from_path wr w renderer rawPath qs none ajax).1) ∧
    (∀ err, renderer rawPath = RenderResult.raises err →
      (publish_from_path wr w renderer rawPath qs none ajax).2 =
        some (SGErr.renderFailed rawPath err)) ∧
    (∀ s body, renderer rawPath = RenderResult.returns s body →
      ((publish_from_path wr w renderer rawPath qs none ajax).2 =
          some (SGErr.nonSuccessStatus rawPath s) ↔ ¬ s = 200)) ∧
    (∀ s body, renderer rawPath = RenderResult.returns s body → s = 200 →
      (publish_from_path wr w renderer rawPath qs none ajax).2 = none →
      FSEvent.write (w.mkstempGen d) body ∈
        (publish_from_path wr w renderer rawPath qs none ajax).1) := by
  rcases publish_eq wr w renderer rawPath qs none ajax p2 q2 f d hq hf with
    ⟨hct, hres⟩ | ⟨hct, err0, hr0, hres⟩ | ⟨hct, s0, body0, hr0, ⟨hs0, hres⟩ | ⟨hs0, hres⟩⟩
  · exact absurd hct (by decide)
  · refine ⟨?_, ?_, ?_, ?_⟩
    · rw [hres]
      simp
    · intro err hr2
      rw [hr0] at hr2
      injection hr2 with h1
      subst h1
      rw [hres]
    · intro s body hr2
      rw [hr0] at hr2
      exact absurd hr2 (by simp)
    · intro s body hr2
      rw [hr0] at hr2
      exact absurd hr2 (by simp)
  · refine ⟨?_, ?_, ?_, ?_⟩
    · rw [hres]
      simp
    · intro err hr2
      rw [hr0] at hr2
      exact absurd hr2 (by simp)
    · intro s body hr2
      rw [hr0] at hr2
      injection hr2 with h1 h2
      subst h1
      subst h2
      rw [hres]
      simp [hs0]
    · intro s body hr2 hs200
      rw [hr0] at hr2
      injection hr2 with h1 h2
      subst h1
      exact absurd hs200 hs0
  · refine ⟨?_, ?_, ?_, ?_⟩
    · rw [hres]
      simp
    · intro err hr2
      rw [hr0] at hr2
      exact absurd hr2 (by simp)
    · intro s body hr2
      rw [hr0] at hr2
      injection hr2 with h1 h2
      subst h1
      subst h2
      rw [hres]
      constructor
      · intro hcontra
        simp only at hcontra
        rcases publish_tail_err w f d body0 _ hcontra with h | h <;> simp at h
      · intro hne
        exact absurd hs0 hne
    · intro s body hr2 hs200 hnone
      rw [hr0] at hr2
      injection hr2 with h1 h2
      subst h1
      subst h2
      rw [hres] at hnone ⊢
      simp only at hnone
      obtain ⟨ev, hev, hall⟩ := tail_success_shape w f d body0 hnone
      simp only [List.mem_cons]
      right
      rw [hev]
      simp

theorem publish_render_contract_witness :
    (get_filename_from_path "/r".toList "/a/".toList none false =
        some ("/r/a/index.html%3F".toList, "/r/a".toList)) ∧
    (FSEvent.renderCall "/a/".toList ∈
      (publish_from_path "/r".toList wOk rOk "/a/".toList none none false).1) :=
  ⟨by decide, (publish_render_contract "/r".toList wOk rOk "/a/".toList none false
      "/a/".toList none "/r/a/index.html%3F".toList "/r/a".toList
      (by rfl) (by decide)).1⟩

theorem delete_eq_of_map (wr : List Char) (w : OSWorld) (rawPath : List Char) (ajax : Bool)
    (p2 : List Char) (q2 : Option (List Char)) (f d : List Char)
    (hq : get_query_string_from_path rawPath = Except.ok (p2, q2))
    (hm : get_filename_from_path wr p2 q2 ajax = some (f, d)) :
    delete_from_path wr w rawPath ajax =
      (if w.existsF f then
        (if w.removeFails f then
          ([FSEvent.remove f], some (SGErr.fileDeleteFailed (some f)))
         else ([FSEvent.remove f, FSEvent.rmdir d], none))
       else ([FSEvent.rmdir d], none)) := by
  simp only [delete_from_path, hq, hm]

/-- C5: delete on a path whose mapped file does not exist raises no error,
so deleting twice in a row succeeds both times; a failure while removing
an existing file surfaces as the file-delete error; and the only error a
delete of a mapped path can ever surface is that file-delete error, so a
failing directory removal is always swallowed. -/
theorem delete_spec (wr : List Char) (w : OSWorld) (rawPath : List Char) (ajax : Bool)
    (p2 : List Char) (q2 : Option (List Char)) (f d : List Char)
    (hq : get_query_string_from_path rawPath = Except.ok (p2, q2))
    (hm : get_filename_from_path wr p2 q2 ajax = some (f, d)) :
    (w.existsF f = false →
      delete_from_path wr w rawPath ajax = ([FSEvent.rmdir d], none)) ∧
    (w.existsF f = true → w.removeFails f = true →
      delete_from_path wr w rawPath ajax =
        ([FSEvent.remove f], some (SGErr.fileDeleteFailed (some f)))) ∧
    ((delete_from_path wr w rawPath ajax).2 = none →
      (delete_from_path wr
        (setExists w (applyFSTrace w.existsF (delete_from_path wr w rawPath ajax).1))
        rawPath ajax).2 = none) ∧
    (∀ e, (delete_from_path wr w rawPath ajax).2 = some e →
      e = SGErr.fileDeleteFailed (some f)) := by
  have hd := delete_eq_of_map wr w rawPath ajax p2 q2 f d hq hm
  refine ⟨?_, ?_, ?_, ?_⟩
  · intro hex
    rw [hd, hex]
    simp
  · intro hex hrf
    rw [hd, hex, hrf]
    simp
  · intro hnone
    by_cases hex : w.existsF f = true
    · by_cases hrf : w.removeFails f = true
      · rw [hd, hex, hrf] at hnone
        simp at hnone
      · have htr : (delete_from_path wr w rawPath ajax).1 =
            [FSEvent.remove f, FSEvent.rmdir d] := by
          rw [hd, if_pos hex, if_neg hrf]
        have hw2 : applyFSTrace w.existsF (delete_from_path wr w rawPath ajax).1 f = false := by
          rw [htr]
          simp [applyFSTrace, applyFSEvent]
        have hd2 := delete_eq_of_map wr
          (setExists w (applyFSTrace w.existsF (delete_from_path wr w rawPath ajax).1))
          rawPath ajax p2 q2 f d hq hm
        rw [hd2]
        have hex2 : (setExists w
            (applyFSTrace w.existsF (delete_from_path wr w rawPath ajax).1)).existsF f =
            false := hw2
        rw [hex2]
        simp
    · have hexf : w.existsF f = false := Bool.of_not_eq_true hex
      have htr : (delete_from_path wr w rawPath ajax).1 = [FSEvent.rmdir d] := by
        rw [hd, hexf]
        simp
      have hw2 : applyFSTrace w.existsF (delete_from_path wr w rawPath ajax).1 f = false := by
        rw [htr]
        simp only [applyFSTrace, List.foldl_cons, List.foldl_nil]
        exact hexf
      have hd2 := delete_eq_of_map wr
        (setExists w (applyFSTrace w.existsF (delete_from_path wr w rawPath ajax).1))
        rawPath ajax p2 q2 f d hq hm
      rw [hd2]
      have hex2 : (setExists w
          (applyFSTrace w.existsF (delete_from_path wr w rawPath ajax).1)).existsF f =
          false := hw2
      rw [hex2]
      simp
  · intro e he
    rw [hd] at he
    by_cases hex : w.existsF f = true
    · by_cases hrf : w.removeFails f = true
      · rw [if_pos hex, if_pos hrf] at he
        simp at he
        exact he.symm
      · rw [if_pos hex, if_neg hrf] at he
        simp at he
    · rw [if_neg hex] at he
      simp at he

theorem delete_spec_witness :
    (wOk.existsF "/r/a/index.html%3F".toList = false) ∧
    delete_from_path "/r".toList wOk "/a/".toList false =
      ([FSEvent.rmdir "/r/a".toList], none) :=
  ⟨by decide, (delete_spec "/r".toList wOk "/a/".toList false "/a/".toList none
      "/r/a/index.html%3F".toList "/r/a".toList (by rfl) (by decide)).1 (by decide)⟩

theorem do_all_ok (func : List Char → List FSEvent × Option SGErr) :
    ∀ l : List (List Char), (∀ p ∈ l, (func p).2 = none) →
      do_all func l = (l.map (fun p => (func p).1), none)
  | [], _ => rfl
  | p :: rest, h => by
    have hp : (func p).2 = none := h p (by simp)
    have hrest := do_all_ok func rest (fun x hx => h x (by simp [hx]))
    simp only [do_all, hp, hrest]
    simp

theorem do_all_abort (func : List Char → List FSEvent × Option SGErr) :
    ∀ (pre : List (List Char)) (bad : List Char) (post : List (List Char)),
      (∀ p ∈ pre, (func p).2 = none) → (func bad).2 ≠ none →
      do_all func (pre ++ bad :: post) =
        (pre.map (fun p => (func p).1) ++ [(func bad).1], (func bad).2)
  | [], bad, post, _, hbad => by
    simp only [List.nil_append, List.map_nil]
    cases hb : (func bad).2 with
    | none => exact absurd hb hbad
    | some e => simp only [do_all, hb]
  | p :: rest, bad, post, hpre, hbad => by
    have hp : (func p).2 = none := hpre p (by simp)
    have ih := do_all_abort func rest bad post (fun x hx => hpre x (by simp [hx])) hbad
    simp only [List.cons_append, do_all, hp, ih]
    simp [ih]

/-- C8: the batch driver applies the operation to the resolved paths
strictly in list order; when every path succeeds each path is processed in
order, and a hard failure on one path propagates its error and aborts all
remaining paths while the paths before the failing one have already been
fully processed. -/
theorem batch_driver_spec (func : List Char → List FSEvent × Option SGErr) :
    (∀ l : List (List Char), (∀ p ∈ l, (func p).2 = none) →
      do_all func l = (l.map (fun p => (func p).1), none)) ∧
    (∀ (pre : List (List Char)) (bad : List Char) (post : List (List Char)),
      (∀ p ∈ pre, (func p).2 = none) → (func bad).2 ≠ none →
      do_all func (pre ++ bad :: post) =
        (pre.map (fun p => (func p).1) ++ [(func bad).1], (func bad).2)) :=
  ⟨do_all_ok func, do_all_abort func⟩

theorem batch_driver_spec_witness :
    ((funcDemo "b".toList).2 ≠ none) ∧
    do_all funcDemo (["a".toList] ++ "b".toList :: ["c".toList]) =
      (["a".toList].map (fun p => (funcDemo p).1) ++ [(funcDemo "b".toList).1],
       (funcDemo "b".toList).2) :=
  ⟨by decide, (batch_driver_spec funcDemo).2 ["a".toList] "b".toList ["c".toList]
    (by decide) (by decide)⟩
